import Mathlib

set_option linter.unusedVariables false

/-!
Shallow embedding of the derived-computation layer of the IRBEM python wrapper
(src/python/IRBEM.py): the field-line interpolation, mirror-point bracketing and
bounce-period integration pipeline (`_interpolate_field_line`, `bounce_period`,
`mirror_point_altitude`), together with the magnetic-model input preparation
(`_prepMagInput`) and the relativistic kinematics helpers (`beta`, `vparalel`).

The opaque Fortran tracing engine (`trace_field_line2_1_`, `make_lstar1_`) and
the SciPy routines (`scipy.interpolate.interp1d`, `scipy.optimize.brentq`) are
external to the repository; they are modelled by their documented contracts,
marked `Modelled from the spec:` below.
-/

namespace IRBEM

/-- Python exceptions raised by the pipeline, identified by the python error
they embed: `openFieldLine` is `ValueError('This is an open field line!')`
(IRBEM.py line 666); `insufficientSamples` is the ValueError raised by
`scipy.interpolate.interp1d(..., kind='cubic')` when fewer than 4 samples are
supplied; `differentSigns` is `ValueError('f(a) and f(b) must have different signs')`
raised by `scipy.optimize.brentq` on a same-sign bracket; `mirrorBelowGround` is
the re-raised `ValueError('Mirror point below the ground! ...')` (lines 479, 542);
`typeError` and `indexError` are python `TypeError` and `IndexError`. -/
inductive PyErr
  | openFieldLine
  | insufficientSamples
  | differentSigns
  | mirrorBelowGround
  | typeError
  | indexError
deriving DecidableEq

/-- Python list slicing `l[:n]` for an `int` index `n`: clamps at both ends, and a
negative `n` counts from the end (`l[:n] = l[:len(l)+n]`, empty if `len(l)+n ≤ 0`). -/
def pyTake {α : Type} (l : List α) (n : Int) : List α :=
  if 0 ≤ n then l.take n.toNat else l.take (l.length - (-n).toNat)

/-- Python list slicing `l[1:-1]`: drops the first and last element. -/
def pyTrim {α : Type} (l : List α) : List α :=
  (l.drop 1).take (l.length - 2)

/-- Earth radius, `Re = 6371 #km` (IRBEM.py line 9). -/
def Re : ℝ := 6371

/-- Light speed, `c = 3.0E8 # m/s` (IRBEM.py line 10). -/
def c : ℝ := 3.0e8

/-- Relativistic speed factor, IRBEM.py line 690:
`beta = lambda Ek, Erest = 511: np.sqrt(1-((Ek/Erest)+1)**(-2))`. -/
noncomputable def beta (Ek Erest : ℝ) : ℝ :=
  Real.sqrt (1 - (Ek / Erest + 1) ^ (-2 : ℤ))

/-- Relativistic parallel velocity, IRBEM.py line 692:
`vparalel = lambda Ek, Bm, B, Erest = 511: c*beta(Ek, Erest)*np.sqrt(1 - np.abs(B/Bm))`. -/
noncomputable def vparalel (Ek Bm B Erest : ℝ) : ℝ :=
  c * beta Ek Erest * Real.sqrt (1 - |B / Bm|)

/-- Raw output buffers of the opaque Fortran routine `trace_field_line2_1_`:
the position triples, the local field magnitudes, and the point count `Nposit`
(sentinel `-9999` for an open field line). -/
structure EngineTrace where
  posit : List (ℝ × ℝ × ℝ)
  blocal : List ℝ
  Nposit : Int

/-- Output dictionary of `trace_field_line` (IRBEM.py lines 398-400): the raw
buffers sliced as `posit[:Nposit.value]` and `blocal[:Nposit.value]`. -/
structure TraceOut where
  POSIT : List (ℝ × ℝ × ℝ)
  Nposit : Int
  blocal : List ℝ

/-- Embeds `trace_field_line` (IRBEM.py lines 347-401).  `engine` abstracts the
opaque Fortran tracing call as a map from the stop radius `R0` to its raw output
buffers; the wrapper slices both buffers with `[:Nposit.value]`. -/
def trace_field_line (engine : ℝ → EngineTrace) (R0 : ℝ) : TraceOut :=
  let raw := engine R0
  { POSIT := pyTake raw.posit raw.Nposit
    Nposit := raw.Nposit
    blocal := pyTake raw.blocal raw.Nposit }

/-- The dictionary returned by `_interpolate_field_line` (IRBEM.py line 680):
`S` is the length of the arc-index range `S = range(N)`, and `fB`, `fx`, `fy`,
`fz` are the cubic interpolants of the field deficit and the GEO coordinates;
`inputB` is the local field at the input location. -/
structure FLine where
  S : ℕ
  fB : ℝ → ℝ
  fx : ℝ → ℝ
  fy : ℝ → ℝ
  fz : ℝ → ℝ
  inputB : ℝ

/-- Embeds `_interpolate_field_line` (IRBEM.py lines 645-680).  `engine`
abstracts the tracing engine, `inputB` is `self.lstar1_output['blocal'][0]`
obtained from `make_lstar` at the same point (line 662), and `itp` abstracts
`scipy.interpolate.interp1d(S, y, kind='cubic')` on success.

Modelled from the spec: `interp1d(..., kind='cubic')` is external SciPy code;
it fails unless there are at least 4 samples (cubic spline minimum), and on
success returns a cubic interpolant, abstracted by `itp`.

Note the code calls `self.trace_field_line(X, maginput)` WITHOUT forwarding its
own `R0` argument (line 664), so the trace always uses the default stop radius 1. -/
def interpolate_field_line (engine : ℝ → EngineTrace)
    (itp : List ℝ → List ℝ → ℝ → ℝ) (inputB : ℝ) (R0 : ℝ) : Except PyErr FLine :=
  let out := trace_field_line engine 1
  if out.Nposit = -9999 then .error .openFieldLine
  else
    let xGEO := (pyTake out.POSIT out.Nposit).map (fun p => p.1)
    let yGEO := (pyTake out.POSIT out.Nposit).map (fun p => p.2.1)
    let zGEO := (pyTake out.POSIT out.Nposit).map (fun p => p.2.2)
    let n := (pyTake out.blocal out.Nposit).length
    let S := (List.range n).map (fun i => (i : ℝ))
    if n < 4 then .error .insufficientSamples
    else .ok { S := n
               fB := itp S ((pyTake out.blocal out.Nposit).map (fun b => b - inputB))
               fx := itp S xGEO
               fy := itp S yGEO
               fz := itp S zGEO
               inputB := inputB }

/-- The arc-length sample count used by `_interpolate_field_line`
(`len(out['blocal'][:out['Nposit']])`, IRBEM.py line 672). -/
def traceSampleCount (engine : ℝ → EngineTrace) : ℕ :=
  (pyTake (trace_field_line engine 1).blocal (trace_field_line engine 1).Nposit).length

open Classical in
/-- Modelled from the spec: `scipy.optimize.brentq(f, a, b)` is external SciPy
code; it is a bracketing root-finder that raises
`ValueError('f(a) and f(b) must have different signs')` when `f(a)*f(b) > 0`,
and otherwise returns a root of `f` in `[a, b]` (idealised here as an exact
root, chosen classically; the dead fallback `a` is never reached when `f` is
continuous). -/
noncomputable def brentq (f : ℝ → ℝ) (a b : ℝ) : Except PyErr ℝ :=
  if f a * f b > 0 then .error .differentSigns
  else if h : ∃ r, a ≤ r ∧ r ≤ b ∧ f r = 0 then .ok h.choose
  else .ok a

/-- The `j`-th of `num` uniformly spaced samples from `a` to `b` (the formula of
`np.linspace(a, b, num=num)` with the default `endpoint=True`). -/
noncomputable def lin (a b : ℝ) (num : ℕ) (j : ℕ) : ℝ :=
  a + j * (b - a) / ((num : ℝ) - 1)

/-- Modelled from the spec: `np.linspace(a, b, num=num)` resamples the interval
uniformly, `num` points from `a` to `b` inclusive. -/
noncomputable def npLinspace (a b : ℝ) (num : ℕ) : List ℝ :=
  (List.range num).map (lin a b num)

/-- Modelled from the spec: `np.convolve(a, [-1, 1], mode='same')` — the
first-difference convolution.  For this length-2 kernel the full convolution has
entries `full[0] = -a[0]`, `full[k] = a[k-1] - a[k]` (for `1 ≤ k ≤ n-1`) and
`full[n] = a[n-1]`, and `mode='same'` keeps its first `n` entries. -/
def convolveDiffSame (a : List ℝ) : List ℝ :=
  (List.range a.length).map (fun k => (if k = 0 then 0 else a.getD (k - 1) 0) - a.getD k 0)

/-- Embeds `bounce_period` (IRBEM.py lines 437-503) for a scalar kinetic energy
`E` (the `else` branch of line 500; the list-of-energy branch maps the same
scalar computation over the list).  The result pairs the warning flag of
line 484 (`len(fLine['S']) > interpNum`, a non-fatal advisory print) with the
bounce period `Tb`.  The `try/except` around the two `brentq` calls (lines
472-481) catches the brentq ValueError — whose message, for the brentq model
above, is always `'f(a) and f(b) must have different signs'` — and re-raises it
as `ValueError('Mirror point below the ground! ...')`. -/
noncomputable def bounce_period (engine : ℝ → EngineTrace)
    (itp : List ℝ → List ℝ → ℝ → ℝ) (inputB : ℝ) (E Erest : ℝ) (R0 : ℝ)
    (interpNum : ℕ) : Except PyErr (Bool × ℝ) :=
  match interpolate_field_line engine itp inputB R0 with
  | .error e => .error e
  | .ok fLine =>
    match brentq fLine.fB 0 ((fLine.S : ℝ) / 2),
          brentq fLine.fB ((fLine.S : ℝ) / 2) ((fLine.S : ℝ) - 1) with
    | .ok startInd, .ok endInd =>
      let warned : Bool := decide (fLine.S > interpNum)
      let sInterp := npLinspace startInd endInd interpNum
      let dx := convolveDiffSame (sInterp.map fLine.fx)
      let dy := convolveDiffSame (sInterp.map fLine.fy)
      let dz := convolveDiffSame (sInterp.map fLine.fz)
      let ds := (List.zipWith (fun a b => a + b)
                  (List.zipWith (fun a b => a + b)
                    (dx.map (fun t => t ^ 2)) (dy.map (fun t => t ^ 2)))
                  (dz.map (fun t => t ^ 2))).map
                (fun t => 6.371e6 * Real.sqrt t)
      let dB := (sInterp.map fLine.fB).map (fun b => b + fLine.inputB)
      let vp := dB.map (fun B => vparalel E fLine.inputB B Erest)
      .ok (warned, 2 * (List.zipWith (fun a b => a / b) (pyTrim ds) (pyTrim vp)).sum)
    | _, _ => .error .mirrorBelowGround

/-- Embeds `mirror_point_altitude` (IRBEM.py lines 505-557).  After the same
interpolation and bracketing as `bounce_period`, returns
`Re*(np.sqrt(fx(i)**2 + fy(i)**2 + fz(i)**2) - 1)` at the conjugate bracket
index (`endInd` when `fz(startInd) > 0`, else `startInd`), lines 551-556. -/
noncomputable def mirror_point_altitude (engine : ℝ → EngineTrace)
    (itp : List ℝ → List ℝ → ℝ → ℝ) (inputB : ℝ) (R0 : ℝ) : Except PyErr ℝ :=
  match interpolate_field_line engine itp inputB R0 with
  | .error e => .error e
  | .ok fLine =>
    match brentq fLine.fB 0 ((fLine.S : ℝ) / 2),
          brentq fLine.fB ((fLine.S : ℝ) / 2) ((fLine.S : ℝ) - 1) with
    | .ok startInd, .ok endInd =>
      if fLine.fz startInd > 0 then
        .ok (Re * (Real.sqrt ((fLine.fx endInd) ^ 2 + (fLine.fy endInd) ^ 2 +
              (fLine.fz endInd) ^ 2) - 1))
      else
        .ok (Re * (Real.sqrt ((fLine.fx startInd) ^ 2 + (fLine.fy startInd) ^ 2 +
              (fLine.fz startInd) ^ 2) - 1))
    | _, _ => .error .mirrorBelowGround

/-- A value of the `maginput` dictionary, classified the way `_prepMagInput`
classifies it by `type(...)` (IRBEM.py lines 584-620): `arr` for
`np.ndarray`/`list`, `scalar` for `int`/`float`/`np.float64`, `other` for any
other python type ("unrecognizable format"). -/
inductive MagValue
  | scalar (x : ℝ)
  | arr (xs : List ℝ)
  | other

/-- Whether the value would take the scalar branch of `_prepMagInput`. -/
def MagValue.isScalar : MagValue → Bool
  | .scalar _ => true
  | _ => false

/-- Whether the value would take the array branch of `_prepMagInput`. -/
def MagValue.isArr : MagValue → Bool
  | .arr _ => true
  | _ => false

/-- A python dict of magnetic-model inputs: an insertion-ordered association
list (python dicts preserve insertion order). -/
abbrev MagInput : Type := List (String × MagValue)

/-- Dictionary access `d[k]`, using the first binding of `k`. -/
def lookupVal (d : MagInput) (k : String) : Option MagValue :=
  (d.find? (fun kv => kv.1 == k)).map (fun kv => kv.2)

/-- The fixed key order of `_prepMagInput` (IRBEM.py lines 580-582). -/
def orderedKeys : List String :=
  ["Kp", "Dst", "dens", "velo", "Pdyn", "ByIMF", "BzIMF", "G1", "G2", "G3",
   "W1", "W2", "W3", "W4", "W5", "W6", "AL"]

/-- One slot of the scalar branch (IRBEM.py lines 610-615):
`self.maginput[i] = inputDict[orderedKeys[i]]` if the key is present (a python
`TypeError` if the value is not a real number, from the ctypes `c_double`
assignment), else `-9999`. -/
def prepScalarRow (d : MagInput) (k : String) : Except PyErr ℝ :=
  match lookupVal d k with
  | none => .ok (-9999)
  | some (.scalar x) => .ok x
  | some _ => .error .typeError

/-- One entry of the array branch (IRBEM.py lines 593-601):
`self.maginput[i][dt] = inputDict[orderedKeys[i]][dt]` if the key is present
(a python `IndexError` if the sequence is too short, a `TypeError` if the value
is not subscriptable-to-a-number), else `-9999`. -/
def prepArrEntry (d : MagInput) (k : String) (dt : ℕ) : Except PyErr ℝ :=
  match lookupVal d k with
  | none => .ok (-9999)
  | some (.arr xs) => if dt < xs.length then .ok (xs.getD dt 0) else .error .indexError
  | some _ => .error .typeError

/-- The ctypes buffer `self.maginput` built by `_prepMagInput`: a flat
25-element vector of doubles in the scalar case, a 25-row matrix in the array
case.  Slots 17..24 are never written by the loops over the 17 ordered keys and
keep their ctypes zero initialisation. -/
inductive MagBuf
  | vec (v : List ℝ)
  | mat (m : List (List ℝ))

/-- The column count of the buffer built by the array branch (`nTimePy`). -/
def magCols : MagBuf → ℕ
  | .mat m => m.headI.length
  | .vec _ => 0

/-- Embeds `_prepMagInput` (IRBEM.py lines 559-621).  `none` is the
`inputDict == None` default (all 25 slots `-9999`).  On an empty dict,
`list(inputDict.keys())[0]` raises `IndexError`.  Otherwise the type of the
FIRST value selects the branch (line 584: "Assume all values assosiated with
keys are the same type").  In the array branch the code sets
`nTimePy = len(list(inputDict.keys())[0])` (line 588) — the length of the first
KEY STRING, embedded faithfully here as `k0.length`. -/
def prepMagInput (dOpt : Option MagInput) : Except PyErr MagBuf :=
  match dOpt with
  | none => .ok (.vec (List.replicate 25 (-9999)))
  | some d =>
    match d with
    | [] => .error .indexError
    | (k0, v0) :: _ =>
      match v0 with
      | .arr _ =>
        (orderedKeys.mapM (fun k =>
            (List.range k0.length).mapM (fun dt => prepArrEntry d k dt))).map
          (fun rows => .mat (rows ++ List.replicate 8 (List.replicate k0.length 0)))
      | .scalar _ =>
        (orderedKeys.mapM (fun k => prepScalarRow d k)).map
          (fun v => .vec (v ++ List.replicate 8 0))
      | .other => .error .typeError

/-- The claim-side value of one of the 17 ordered slots: the dictionary value
when the key is present, the sentinel `-9999` otherwise. -/
def scalarLookup (d : MagInput) (k : String) : ℝ :=
  match lookupVal d k with
  | some (.scalar x) => x
  | _ => -9999

/-- Engine output for an open field line: `Nposit` is the sentinel `-9999`
(used by the concrete witnesses below). -/
def engineOpen : ℝ → EngineTrace := fun _ => ⟨[], [], -9999⟩

/-- Engine output with only two samples and no open-line sentinel (used by the
concrete witnesses below). -/
def engineShort : ℝ → EngineTrace := fun _ => ⟨[(0, 0, 0), (1, 1, 1)], [1, 2], 2⟩

/-- Concrete engine output used by several witnesses: a 4-sample trace with
positions `(s, 0, 3-s)` and local-field values whose deficit against
`inputB = 0` is the polynomial `(s - 1.5)*(s - 2.5)` sampled at `s = 0..3`. -/
def engineW : ℝ → EngineTrace := fun _ =>
  ⟨[(0, 0, 3), (1, 0, 2), (2, 0, 1), (3, 0, 0)], [3.75, 0.75, -0.25, 0.75], 4⟩

/-- Concrete interpolation oracle for `engineW`: on each of the four sample
lists of `engineW` (with `inputB = 0`) it returns the genuine polynomial
interpolant of degree at most 3 through those samples. -/
noncomputable def itpW : List ℝ → List ℝ → ℝ → ℝ := fun _ y =>
  if y = [3.75, 0.75, -0.25, 0.75] then fun s => (s - 1.5) * (s - 2.5)
  else if y = [0, 1, 2, 3] then fun s => s
  else if y = [0, 0, 0, 0] then fun _ => 0
  else fun s => 3 - s

/-- The interpolated field line produced by `engineW` with `itpW` and
`inputB = 0`. -/
noncomputable def flW : FLine :=
  ⟨4, fun s => (s - 1.5) * (s - 2.5), fun s => s, fun _ => 0, fun s => 3 - s, 0⟩

/-- Concrete engine output with a constant local field (used by the C10
witness: the field deficit never changes sign, so `brentq` fails). -/
def engineFlat : ℝ → EngineTrace := fun _ =>
  ⟨[(1, 1, 1), (1, 1, 1), (1, 1, 1), (1, 1, 1)], [1, 1, 1, 1], 4⟩

/-- Constant interpolation oracle for `engineFlat`. -/
def itpFlat : List ℝ → List ℝ → ℝ → ℝ := fun _ _ _ => 1

/-- The interpolated field line produced by `engineFlat` with `itpFlat` and
`inputB = 0`. -/
def flFlat : FLine := ⟨4, fun _ => 1, fun _ => 1, fun _ => 1, fun _ => 1, 0⟩

/-- Bind of an error short-circuits in the `Except` monad. -/
theorem bindErr {ε α β : Type} (e : ε) (g : α → Except ε β) :
    (Except.error e >>= g) = Except.error e := rfl

/-- Bind of a success applies the continuation in the `Except` monad. -/
theorem bindOk {ε α β : Type} (b : α) (g : α → Except ε β) :
    (Except.ok b >>= g) = g b := rfl

/-- Pure is `Except.ok`. -/
theorem pureEq {ε α : Type} (b : α) : (pure b : Except ε α) = Except.ok b := rfl

/-- Map of an error is that error. -/
theorem mapErr {ε α β : Type} (e : ε) (f : α → β) :
    (Except.error e : Except ε α).map f = Except.error e := rfl

/-- Map of a success applies the function. -/
theorem mapOk {ε α β : Type} (b : α) (f : α → β) :
    (Except.ok b : Except ε α).map f = Except.ok (f b) := rfl

/-- A `mapM` over elements on which `f` succeeds pointwise is the `map` of the
pointwise results. -/
theorem mapM_ok_of_forall {ε α β : Type} (f : α → Except ε β) (g : α → β)
    (l : List α) (h : ∀ a ∈ l, f a = .ok (g a)) : l.mapM f = .ok (l.map g) := by
  induction l with
  | nil => rfl
  | cons a l ih =>
    rw [List.mapM_cons, h a (List.mem_cons_self a l),
      ih (fun b hb => h b (List.mem_cons_of_mem a hb))]
    rfl

/-- Any error produced by a `mapM` is an error of `f` at some element, so any
property of all of `f`'s errors holds of it. -/
theorem mapM_error_kind {ε α β : Type} (P : ε → Prop) (f : α → Except ε β)
    (l : List α) (hall : ∀ a ∈ l, ∀ e, f a = .error e → P e) :
    ∀ e, l.mapM f = .error e → P e := by
  induction l with
  | nil =>
    intro e he
    rw [List.mapM_nil, pureEq] at he
    exact Except.noConfusion he
  | cons a l ih =>
    intro e he
    rw [List.mapM_cons] at he
    cases hfa : f a with
    | error e1 =>
      rw [hfa, bindErr] at he
      obtain rfl := (Except.error.injEq _ _).mp he
      exact hall a (List.mem_cons_self a l) e1 hfa
    | ok b =>
      rw [hfa, bindOk] at he
      cases hl : l.mapM f with
      | error e2 =>
        rw [hl, bindErr] at he
        obtain rfl := (Except.error.injEq _ _).mp he
        exact ih (fun x hx => hall x (List.mem_cons_of_mem a hx)) e2 hl
      | ok xs =>
        rw [hl, bindOk, pureEq] at he
        exact Except.noConfusion he

/-- If `f` errors on some element of `l`, then `mapM f l` errors, with an error
that `f` produces on some element. -/
theorem mapM_error_exists {ε α β : Type} (P : ε → Prop) (f : α → Except ε β)
    (l : List α) (hall : ∀ a ∈ l, ∀ e, f a = .error e → P e)
    (hex : ∃ a ∈ l, ∃ e, f a = .error e) :
    ∃ e, l.mapM f = .error e ∧ P e := by
  induction l with
  | nil => obtain ⟨a, ha, _⟩ := hex; exact absurd ha (List.not_mem_nil a)
  | cons a l ih =>
    cases hfa : f a with
    | error e1 =>
      refine ⟨e1, ?_, hall a (List.mem_cons_self a l) e1 hfa⟩
      rw [List.mapM_cons, hfa, bindErr]
    | ok b =>
      have hex2 : ∃ x ∈ l, ∃ e, f x = .error e := by
        obtain ⟨x, hx, e, hfx⟩ := hex
        rcases List.mem_cons.mp hx with rfl | hx2
        · rw [hfa] at hfx; exact absurd hfx (by simp)
        · exact ⟨x, hx2, e, hfx⟩
      obtain ⟨e2, hl, hP⟩ := ih (fun x hx => hall x (List.mem_cons_of_mem a hx)) hex2
      refine ⟨e2, ?_, hP⟩
      rw [List.mapM_cons, hfa, bindOk]
      rw [hl, bindErr]

/-- Reduction of `_prepMagInput` on a dict whose first value is a scalar. -/
theorem prepMagInput_scalar_branch (k0 : String) (x : ℝ) (tl : MagInput) :
    prepMagInput (some ((k0, .scalar x) :: tl)) =
      (orderedKeys.mapM (fun k => prepScalarRow ((k0, .scalar x) :: tl) k)).map
        (fun v => .vec (v ++ List.replicate 8 0)) := rfl

/-- Reduction of `_prepMagInput` on a dict whose first value is a sequence. -/
theorem prepMagInput_arr_branch (k0 : String) (xs : List ℝ) (tl : MagInput) :
    prepMagInput (some ((k0, .arr xs) :: tl)) =
      (orderedKeys.mapM (fun k =>
          (List.range k0.length).mapM
            (fun dt => prepArrEntry ((k0, .arr xs) :: tl) k dt))).map
        (fun rows => .mat (rows ++ List.replicate 8 (List.replicate k0.length 0))) := rfl

/-- Reduction of `_prepMagInput` on a dict whose first value has an
unrecognizable type: `TypeError` is raised at once. -/
theorem prepMagInput_other_branch (k0 : String) (tl : MagInput) :
    prepMagInput (some ((k0, .other) :: tl)) = .error .typeError := rfl

/-- Dictionary access at the key of a member, for a dict with distinct keys. -/
theorem lookupVal_of_mem (d : MagInput) (hnodup : (d.map Prod.fst).Nodup)
    {kv : String × MagValue} (hkv : kv ∈ d) : lookupVal d kv.1 = some kv.2 := by
  induction d with
  | nil => exact absurd hkv (List.not_mem_nil kv)
  | cons hd tl ih =>
    rw [List.map_cons, List.nodup_cons] at hnodup
    rcases List.mem_cons.mp hkv with rfl | h2
    · unfold lookupVal
      rw [List.find?_cons_of_pos _ (by simp)]
      rfl
    · have hne : (hd.1 == kv.1) = false := by
        refine beq_eq_false_iff_ne.mpr (fun heq => hnodup.1 ?_)
        exact heq ▸ List.mem_map_of_mem Prod.fst h2
      unfold lookupVal
      rw [List.find?_cons_of_neg _ (by simp [hne])]
      exact ih hnodup.2 h2

/-- Scalar-branch rows succeed on all-scalar dicts, yielding the claim-side
fixed-order slot value. -/
theorem prepScalarRow_ok (d : MagInput) (hs : d.all (fun kv => kv.2.isScalar) = true)
    (k : String) : prepScalarRow d k = .ok (scalarLookup d k) := by
  unfold prepScalarRow scalarLookup
  cases hl : lookupVal d k with
  | none => rfl
  | some v =>
    obtain ⟨kv, hkv, hkv2⟩ : ∃ kv ∈ d, kv.2 = v := by
      unfold lookupVal at hl
      cases hf : d.find? (fun kv => kv.1 == k) with
      | none => rw [hf] at hl; exact absurd hl (by simp)
      | some kv =>
        rw [hf] at hl
        refine ⟨kv, List.mem_of_find?_eq_some hf, ?_⟩
        simpa using hl
    have hsc := List.all_eq_true.mp hs kv hkv
    rw [hkv2] at hsc
    cases v with
    | scalar x => rfl
    | arr xs => exact absurd hsc (by simp [MagValue.isScalar])
    | other => exact absurd hsc (by simp [MagValue.isScalar])

/-- Errors of the scalar branch rows are TypeErrors. -/
theorem prepScalarRow_error_kind (d : MagInput) (k : String) (e : PyErr)
    (h : prepScalarRow d k = .error e) : e = .typeError ∨ e = .indexError := by
  unfold prepScalarRow at h
  cases hl : lookupVal d k with
  | none => rw [hl] at h; exact absurd h (by simp)
  | some v =>
    rw [hl] at h
    cases v with
    | scalar x => exact absurd h (by simp)
    | arr xs => exact Or.inl ((Except.error.injEq _ _).mp h).symm
    | other => exact Or.inl ((Except.error.injEq _ _).mp h).symm

/-- Errors of the array branch entries are TypeErrors or IndexErrors. -/
theorem prepArrEntry_error_kind (d : MagInput) (k : String) (dt : ℕ) (e : PyErr)
    (h : prepArrEntry d k dt = .error e) : e = .typeError ∨ e = .indexError := by
  unfold prepArrEntry at h
  cases hl : lookupVal d k with
  | none => rw [hl] at h; exact absurd h (by simp)
  | some v =>
    rw [hl] at h
    cases v with
    | scalar x => exact Or.inl ((Except.error.injEq _ _).mp h).symm
    | arr xs =>
      have h2 : (if dt < xs.length then (Except.ok (xs.getD dt 0) : Except PyErr ℝ)
          else .error .indexError) = .error e := h
      by_cases hdt : dt < xs.length
      · rw [if_pos hdt] at h2; exact absurd h2 (by simp)
      · rw [if_neg hdt] at h2; exact Or.inr ((Except.error.injEq _ _).mp h2).symm
    | other => exact Or.inl ((Except.error.injEq _ _).mp h).symm

/-- A non-scalar value in the scalar branch raises TypeError at its key's row. -/
theorem prepScalarRow_mixed_error (d : MagInput) (hnodup : (d.map Prod.fst).Nodup)
    {kv : String × MagValue} (hkv : kv ∈ d) (hns : kv.2.isScalar = false) :
    prepScalarRow d kv.1 = .error .typeError := by
  unfold prepScalarRow
  rw [lookupVal_of_mem d hnodup hkv]
  cases hv : kv.2 with
  | scalar x => rw [hv] at hns; exact absurd hns (by simp [MagValue.isScalar])
  | arr xs => rfl
  | other => rfl

/-- A non-sequence value in the array branch raises TypeError at its key's
first entry. -/
theorem prepArrEntry_mixed_error (d : MagInput) (hnodup : (d.map Prod.fst).Nodup)
    {kv : String × MagValue} (hkv : kv ∈ d) (hna : kv.2.isArr = false) (dt : ℕ) :
    prepArrEntry d kv.1 dt = .error .typeError := by
  unfold prepArrEntry
  rw [lookupVal_of_mem d hnodup hkv]
  cases hv : kv.2 with
  | scalar x => rfl
  | arr xs => rw [hv] at hna; exact absurd hna (by simp [MagValue.isArr])
  | other => rfl

/-- Every one of the 17 ordered keys is a non-empty string. -/
theorem orderedKeys_length_pos : ∀ k ∈ orderedKeys, 0 < k.length := by decide

/-- C3: whenever the traced field line's point count `Nposit` equals the
sentinel `-9999`, the field-line interpolator `_interpolate_field_line` — and
hence `bounce_period` and `mirror_point_altitude` — raises the open-field-line
`ValueError` and never returns a (partial) interpolation result. -/
theorem c3_open_field_line_error (engine : ℝ → EngineTrace)
    (itp : List ℝ → List ℝ → ℝ → ℝ) (inputB E Erest R0 : ℝ) (interpNum : ℕ)
    (h : (trace_field_line engine 1).Nposit = -9999) :
    interpolate_field_line engine itp inputB R0 = .error .openFieldLine ∧
    bounce_period engine itp inputB E Erest R0 interpNum = .error .openFieldLine ∧
    mirror_point_altitude engine itp inputB R0 = .error .openFieldLine := by
  have hi : interpolate_field_line engine itp inputB R0 = .error .openFieldLine := by
    simp [interpolate_field_line, h]
  refine ⟨hi, ?_, ?_⟩
  · simp [bounce_period, hi]
  · simp [mirror_point_altitude, hi]

/-- Witness for C3 at a concrete open-line engine output. -/
theorem c3_witness :
    (trace_field_line engineOpen 1).Nposit = -9999 ∧
    interpolate_field_line engineOpen (fun _ _ _ => 0) 0 1 = .error .openFieldLine ∧
    bounce_period engineOpen (fun _ _ _ => 0) 0 100 511 1 100000 = .error .openFieldLine ∧
    mirror_point_altitude engineOpen (fun _ _ _ => 0) 0 1 = .error .openFieldLine := by
  have h : (trace_field_line engineOpen 1).Nposit = -9999 := rfl
  obtain ⟨h1, h2, h3⟩ :=
    c3_open_field_line_error engineOpen (fun _ _ _ => 0) 0 100 511 1 100000 h
  exact ⟨h, h1, h2, h3⟩

/-- C7: if the traced field line is not the open-line sentinel but has fewer
than 4 samples, the field-line interpolator fails with the insufficient-samples
error of the cubic-interpolant constructor, not with an unrelated error, and
never proceeds to return an interpolation result. -/
theorem c7_insufficient_samples (engine : ℝ → EngineTrace)
    (itp : List ℝ → List ℝ → ℝ → ℝ) (inputB R0 : ℝ)
    (hno : (trace_field_line engine 1).Nposit ≠ -9999)
    (hlt : traceSampleCount engine < 4) :
    interpolate_field_line engine itp inputB R0 = .error .insufficientSamples := by
  unfold traceSampleCount at hlt
  simp [interpolate_field_line, hno, hlt]

/-- Witness for C7 at a concrete two-sample engine output. -/
theorem c7_witness :
    (trace_field_line engineShort 1).Nposit ≠ -9999 ∧
    traceSampleCount engineShort < 4 ∧
    interpolate_field_line engineShort (fun _ _ _ => 0) 0 1 = .error .insufficientSamples := by
  have h1 : (trace_field_line engineShort 1).Nposit ≠ -9999 := by decide
  have h2 : traceSampleCount engineShort < 4 := by decide
  exact ⟨h1, h2, c7_insufficient_samples engineShort (fun _ _ _ => 0) 0 1 h1 h2⟩

/-- C4, evaluated at the failing input `maginput = dict(Kp=[1.0, 2.0, 3.0])`:
the array branch of `_prepMagInput` builds a matrix whose column count is 2 —
`len(list(inputDict.keys())[0])`, the length of the first KEY STRING `'Kp'` —
and not 3, the length of the supplied value sequence. -/
theorem c4_wrong_column_count :
    (prepMagInput (some [("Kp", MagValue.arr [1, 2, 3])])).map magCols = .ok 2 ∧
    (2 : ℕ) ≠ 3 :=
  ⟨rfl, by decide⟩

/-- Counterexample for C9: the mixed-type dict `dict(Kp=[1.0], Dst=5.0)` — not
uniformly scalar nor uniformly sequence-typed — makes `_prepMagInput` raise
`IndexError` (the array branch subscripts `[1.0]` at index 1, because
`nTimePy = len('Kp') = 2`), which is not a TypeError-kind error. -/
theorem c9_counterexample :
    prepMagInput (some [("Kp", MagValue.arr [1]), ("Dst", MagValue.scalar 5)]) =
      .error .indexError ∧
    PyErr.indexError ≠ PyErr.typeError :=
  ⟨rfl, by decide⟩

/-- C6: on a non-empty dict of uniformly scalar values, `_prepMagInput`
succeeds and builds the 25-double buffer whose first 17 slots are, in the fixed
key order `Kp, Dst, dens, velo, Pdyn, ByIMF, BzIMF, G1, G2, G3, W1..W6, AL`,
the dict's value at that key or the sentinel `-9999` when the key is absent
(the remaining 8 slots keep their ctypes zero initialisation); this ordered
buffer is what is flattened into the engine's parameter vector. -/
theorem c6_scalar_fixed_order (d : MagInput) (hne : d ≠ [])
    (hs : d.all (fun kv => kv.2.isScalar) = true) :
    prepMagInput (some d) =
      .ok (.vec (orderedKeys.map (scalarLookup d) ++ List.replicate 8 0)) ∧
    (orderedKeys.map (scalarLookup d) ++ List.replicate 8 0).length = 25 ∧
    ∀ i, i < 17 →
      (orderedKeys.map (scalarLookup d) ++ List.replicate 8 0).getD i 0 =
        scalarLookup d (orderedKeys.getD i "") := by
  obtain ⟨⟨k0, v0⟩, tl, rfl⟩ : ∃ kv tl, d = kv :: tl := by
    cases d with
    | nil => exact absurd rfl hne
    | cons a b => exact ⟨a, b, rfl⟩
  have hv0 : v0.isScalar = true := List.all_eq_true.mp hs (k0, v0) (List.mem_cons_self _ _)
  obtain ⟨x, rfl⟩ : ∃ x, v0 = .scalar x := by
    cases v0 with
    | scalar x => exact ⟨x, rfl⟩
    | arr xs => exact absurd hv0 (by simp [MagValue.isScalar])
    | other => exact absurd hv0 (by simp [MagValue.isScalar])
  refine ⟨?_, by simp [orderedKeys], ?_⟩
  · rw [prepMagInput_scalar_branch,
      mapM_ok_of_forall _ _ orderedKeys (fun k _ => prepScalarRow_ok _ hs k), mapOk]
  · intro i hi
    interval_cases i <;> rfl

/-- Witness for C6 at the concrete all-scalar dict `dict(Dst=5.0, W3=7.0)`. -/
theorem c6_witness :
    ([(("Dst" : String), MagValue.scalar 5), ("W3", MagValue.scalar 7)] : MagInput) ≠ [] ∧
    ([(("Dst" : String), MagValue.scalar 5), ("W3", MagValue.scalar 7)] : MagInput).all
      (fun kv => kv.2.isScalar) = true ∧
    (prepMagInput (some [(("Dst" : String), MagValue.scalar 5), ("W3", MagValue.scalar 7)]) =
      .ok (.vec (orderedKeys.map
        (scalarLookup [(("Dst" : String), MagValue.scalar 5), ("W3", MagValue.scalar 7)]) ++
        List.replicate 8 0)) ∧
    (orderedKeys.map
        (scalarLookup [(("Dst" : String), MagValue.scalar 5), ("W3", MagValue.scalar 7)]) ++
        List.replicate 8 0).length = 25 ∧
    ∀ i, i < 17 →
      (orderedKeys.map
          (scalarLookup [(("Dst" : String), MagValue.scalar 5), ("W3", MagValue.scalar 7)]) ++
          List.replicate 8 0).getD i 0 =
        scalarLookup [(("Dst" : String), MagValue.scalar 5), ("W3", MagValue.scalar 7)]
          (orderedKeys.getD i "")) :=
  ⟨by simp, rfl, c6_scalar_fixed_order _ (by simp) rfl⟩

/-- C9 as amended: a valid-keyed dict whose values are neither uniformly scalar
nor uniformly sequence-typed always makes `_prepMagInput` fail synchronously
(before any engine call), but the error is either a TypeError or — when the
array branch runs out of a too-short sequence first — an IndexError. -/
theorem c9_amended_mixed_error (d : MagInput) (hne : d ≠ [])
    (hkeys : ∀ kv ∈ d, kv.1 ∈ orderedKeys)
    (hnodup : (d.map Prod.fst).Nodup)
    (hns : d.all (fun kv => kv.2.isScalar) ≠ true)
    (hna : d.all (fun kv => kv.2.isArr) ≠ true) :
    ∃ e, prepMagInput (some d) = .error e ∧ (e = .typeError ∨ e = .indexError) := by
  obtain ⟨kvS, hkvS, hkvSf⟩ : ∃ kv ∈ d, kv.2.isScalar = false := by
    simpa [List.all_eq_true, Bool.not_eq_true] using hns
  obtain ⟨kvA, hkvA, hkvAf⟩ : ∃ kv ∈ d, kv.2.isArr = false := by
    simpa [List.all_eq_true, Bool.not_eq_true] using hna
  obtain ⟨⟨k0, v0⟩, tl, rfl⟩ : ∃ kv tl, d = kv :: tl := by
    cases d with
    | nil => exact absurd rfl hne
    | cons a b => exact ⟨a, b, rfl⟩
  cases hv0 : v0 with
  | other =>
    subst hv0
    exact ⟨.typeError, prepMagInput_other_branch k0 tl, Or.inl rfl⟩
  | scalar x =>
    subst hv0
    obtain ⟨e, hmap, hP⟩ := mapM_error_exists (fun e => e = .typeError ∨ e = .indexError)
      (fun k => prepScalarRow ((k0, MagValue.scalar x) :: tl) k) orderedKeys
      (fun k _ e he => prepScalarRow_error_kind _ k e he)
      ⟨kvS.1, hkeys kvS hkvS, .typeError, prepScalarRow_mixed_error _ hnodup hkvS hkvSf⟩
    refine ⟨e, ?_, hP⟩
    rw [prepMagInput_scalar_branch, hmap, mapErr]
  | arr xs =>
    subst hv0
    have hk0 : 0 < k0.length :=
      orderedKeys_length_pos k0 (hkeys (k0, MagValue.arr xs) (List.mem_cons_self _ _))
    have hinner : ∀ k ∈ orderedKeys, ∀ e,
        (List.range k0.length).mapM
          (fun dt => prepArrEntry ((k0, MagValue.arr xs) :: tl) k dt) = .error e →
        e = .typeError ∨ e = .indexError := fun k _ e he =>
      mapM_error_kind _ _ _ (fun dt _ e2 he2 => prepArrEntry_error_kind _ k dt e2 he2) e he
    obtain ⟨e1, hA, hPA⟩ := mapM_error_exists (fun e => e = .typeError ∨ e = .indexError)
      (fun dt => prepArrEntry ((k0, MagValue.arr xs) :: tl) kvA.1 dt) (List.range k0.length)
      (fun dt _ e2 he2 => prepArrEntry_error_kind _ kvA.1 dt e2 he2)
      ⟨0, List.mem_range.mpr hk0, .typeError, prepArrEntry_mixed_error _ hnodup hkvA hkvAf 0⟩
    obtain ⟨e, hmap, hP⟩ := mapM_error_exists (fun e => e = .typeError ∨ e = .indexError)
      (fun k => (List.range k0.length).mapM
        (fun dt => prepArrEntry ((k0, MagValue.arr xs) :: tl) k dt)) orderedKeys
      hinner ⟨kvA.1, hkeys kvA hkvA, e1, hA⟩
    refine ⟨e, ?_, hP⟩
    rw [prepMagInput_arr_branch, hmap, mapErr]

/-- Witness for C9's amended claim at the concrete mixed dict
`dict(Kp=1.0, Dst=[2.0])`. -/
theorem c9_witness :
    ([(("Kp" : String), MagValue.scalar 1), ("Dst", MagValue.arr [2])] : MagInput) ≠ [] ∧
    (∀ kv ∈ ([(("Kp" : String), MagValue.scalar 1), ("Dst", MagValue.arr [2])] : MagInput),
      kv.1 ∈ orderedKeys) ∧
    (([(("Kp" : String), MagValue.scalar 1), ("Dst", MagValue.arr [2])] : MagInput).map
      Prod.fst).Nodup ∧
    (∃ e, prepMagInput
        (some [(("Kp" : String), MagValue.scalar 1), ("Dst", MagValue.arr [2])]) =
        .error e ∧ (e = .typeError ∨ e = .indexError)) := by
  have h1 : ([(("Kp" : String), MagValue.scalar 1), ("Dst", MagValue.arr [2])] : MagInput)
      ≠ [] := by simp
  have h2 : ∀ kv ∈ ([(("Kp" : String), MagValue.scalar 1),
      ("Dst", MagValue.arr [2])] : MagInput), kv.1 ∈ orderedKeys := by
    intro kv hkv
    rcases List.mem_cons.mp hkv with rfl | hkv2
    · decide
    · rcases List.mem_cons.mp hkv2 with rfl | hkv3
      · decide
      · exact absurd hkv3 (List.not_mem_nil kv)
  have h3 : (([(("Kp" : String), MagValue.scalar 1),
      ("Dst", MagValue.arr [2])] : MagInput).map Prod.fst).Nodup := by
    simp
  refine ⟨h1, h2, h3, c9_amended_mixed_error _ h1 h2 h3 (by simp [MagValue.isScalar])
    (by simp [MagValue.isArr])⟩

/-- A bracket whose endpoints have a non-positive sign product and a unique
root in it pins down the value `brentq` returns. -/
theorem brentq_eq_of_unique (f : ℝ → ℝ) (a b r : ℝ)
    (hns : ¬ f a * f b > 0)
    (hr : a ≤ r ∧ r ≤ b ∧ f r = 0)
    (hu : ∀ x, a ≤ x → x ≤ b → f x = 0 → x = r) :
    brentq f a b = .ok r := by
  unfold brentq
  rw [if_neg hns, dif_pos ⟨r, hr⟩]
  have hspec := (⟨r, hr⟩ : ∃ x, a ≤ x ∧ x ≤ b ∧ f x = 0).choose_spec
  exact congrArg Except.ok (hu _ hspec.1 hspec.2.1 hspec.2.2)

/-- On a strict sign change of a continuous function, `brentq` succeeds and
returns a root strictly inside the bracket. -/
theorem brentq_root_of_sign_change (f : ℝ → ℝ) (a b : ℝ) (hab : a ≤ b)
    (hc : Continuous f) (hs : f a * f b < 0) :
    ∃ r, brentq f a b = .ok r ∧ f r = 0 ∧ a < r ∧ r < b := by
  have hex : ∃ r, a < r ∧ r < b ∧ f r = 0 := by
    rcases mul_neg_iff.mp hs with ⟨hfa, hfb⟩ | ⟨hfa, hfb⟩
    · obtain ⟨r, hr, hfr⟩ := intermediate_value_Ioo' hab hc.continuousOn
        (Set.mem_Ioo.mpr ⟨hfb, hfa⟩)
      exact ⟨r, hr.1, hr.2, hfr⟩
    · obtain ⟨r, hr, hfr⟩ := intermediate_value_Ioo hab hc.continuousOn
        (Set.mem_Ioo.mpr ⟨hfa, hfb⟩)
      exact ⟨r, hr.1, hr.2, hfr⟩
  have hns : ¬ f a * f b > 0 := by linarith
  have hicc : ∃ x, a ≤ x ∧ x ≤ b ∧ f x = 0 := by
    obtain ⟨r, h1, h2, h3⟩ := hex
    exact ⟨r, le_of_lt h1, le_of_lt h2, h3⟩
  have hfa0 : f a ≠ 0 := by
    intro h
    rw [h, zero_mul] at hs
    exact absurd hs (lt_irrefl 0)
  have hfb0 : f b ≠ 0 := by
    intro h
    rw [h, mul_zero] at hs
    exact absurd hs (lt_irrefl 0)
  refine ⟨hicc.choose, ?_, hicc.choose_spec.2.2, ?_, ?_⟩
  · unfold brentq
    rw [if_neg hns, dif_pos hicc]
  · rcases lt_or_eq_of_le hicc.choose_spec.1 with h | h
    · exact h
    · exact absurd (h ▸ hicc.choose_spec.2.2) hfa0
  · rcases lt_or_eq_of_le hicc.choose_spec.2.1 with h | h
    · exact h
    · exact absurd (h ▸ hicc.choose_spec.2.2) hfb0

/-- C2: for a field line of at least 4 samples whose continuous interpolated
field deficit changes sign on each half of the arc-index domain, the two
`brentq` calls made by `bounce_period` and `mirror_point_altitude` succeed:
`sLow` is a root of the deficit in `[0, N/2]`, `sHigh` is a root in
`[N/2, N-1]`, and `sLow < N/2 ≤ sHigh`. -/
theorem c2_mirror_bracket (fl : FLine) (h4 : 4 ≤ fl.S) (hc : Continuous fl.fB)
    (hs1 : fl.fB 0 * fl.fB ((fl.S : ℝ) / 2) < 0)
    (hs2 : fl.fB ((fl.S : ℝ) / 2) * fl.fB ((fl.S : ℝ) - 1) < 0) :
    ∃ sLow sHigh,
      brentq fl.fB 0 ((fl.S : ℝ) / 2) = .ok sLow ∧
      brentq fl.fB ((fl.S : ℝ) / 2) ((fl.S : ℝ) - 1) = .ok sHigh ∧
      fl.fB sLow = 0 ∧ 0 ≤ sLow ∧ sLow ≤ (fl.S : ℝ) / 2 ∧
      fl.fB sHigh = 0 ∧ (fl.S : ℝ) / 2 ≤ sHigh ∧ sHigh ≤ (fl.S : ℝ) - 1 ∧
      sLow < (fl.S : ℝ) / 2 ∧ (fl.S : ℝ) / 2 ≤ sHigh := by
  have hn : (4 : ℝ) ≤ (fl.S : ℝ) := by exact_mod_cast h4
  obtain ⟨sLow, hbl, hfl0, hl1, hl2⟩ :=
    brentq_root_of_sign_change fl.fB 0 ((fl.S : ℝ) / 2) (by linarith) hc hs1
  obtain ⟨sHigh, hbh, hfh0, hh1, hh2⟩ :=
    brentq_root_of_sign_change fl.fB ((fl.S : ℝ) / 2) ((fl.S : ℝ) - 1) (by linarith) hc hs2
  exact ⟨sLow, sHigh, hbl, hbh, hfl0, le_of_lt hl1, le_of_lt hl2, hfh0,
    le_of_lt hh1, le_of_lt hh2, hl2, le_of_lt hh1⟩

/-- Witness for C2 at the concrete interpolated line `flW`, whose deficit
`(s - 1.5)*(s - 2.5)` changes sign on `[0, 2]` and on `[2, 3]`. -/
theorem c2_witness :
    4 ≤ flW.S ∧ Continuous flW.fB ∧
    flW.fB 0 * flW.fB ((flW.S : ℝ) / 2) < 0 ∧
    flW.fB ((flW.S : ℝ) / 2) * flW.fB ((flW.S : ℝ) - 1) < 0 ∧
    (∃ sLow sHigh,
      brentq flW.fB 0 ((flW.S : ℝ) / 2) = .ok sLow ∧
      brentq flW.fB ((flW.S : ℝ) / 2) ((flW.S : ℝ) - 1) = .ok sHigh ∧
      flW.fB sLow = 0 ∧ 0 ≤ sLow ∧ sLow ≤ (flW.S : ℝ) / 2 ∧
      flW.fB sHigh = 0 ∧ (flW.S : ℝ) / 2 ≤ sHigh ∧ sHigh ≤ (flW.S : ℝ) - 1 ∧
      sLow < (flW.S : ℝ) / 2 ∧ (flW.S : ℝ) / 2 ≤ sHigh) := by
  have h4 : 4 ≤ flW.S := by norm_num [flW]
  have hc : Continuous flW.fB := by
    rw [show flW.fB = fun s => (s - 1.5) * (s - 2.5) from rfl]
    fun_prop
  have hs1 : flW.fB 0 * flW.fB ((flW.S : ℝ) / 2) < 0 := by norm_num [flW]
  have hs2 : flW.fB ((flW.S : ℝ) / 2) * flW.fB ((flW.S : ℝ) - 1) < 0 := by norm_num [flW]
  exact ⟨h4, hc, hs1, hs2, c2_mirror_bracket flW h4 hc hs1 hs2⟩

/-- Entry `k` of a map over `List.range n`, for `k < n`. -/
theorem getD_range_map (f : ℕ → ℝ) (n k : ℕ) (h : k < n) :
    ((List.range n).map f).getD k 0 = f k := by
  rw [List.getD_eq_getElem _ _ (by simpa using h)]
  simp

/-- The first-difference convolution of a map over `List.range n`, pointwise. -/
theorem convolveDiffSame_range_map (g : ℕ → ℝ) (n : ℕ) :
    convolveDiffSame ((List.range n).map g) =
      (List.range n).map (fun k => (if k = 0 then 0 else g (k - 1)) - g k) := by
  unfold convolveDiffSame
  rw [List.length_map, List.length_range]
  apply List.map_congr_left
  intro k hk
  have hk2 : k < n := List.mem_range.mp hk
  congr 1
  · by_cases h0 : k = 0
    · simp [h0]
    · rw [if_neg h0, if_neg h0,
        getD_range_map g n (k - 1) (lt_of_le_of_lt (Nat.sub_le k 1) hk2)]
  · exact getD_range_map g n k hk2

/-- Zipping two maps over the same `List.range n` is a single map. -/
theorem zipWith_range_map (h : ℝ → ℝ → ℝ) :
    ∀ (n : ℕ) (p q : ℕ → ℝ),
      List.zipWith h ((List.range n).map p) ((List.range n).map q) =
        (List.range n).map (fun k => h (p k) (q k)) := by
  intro n
  induction n with
  | zero => intro p q; rfl
  | succ m ih =>
    intro p q
    rw [List.range_succ_eq_map]
    simp only [List.map_cons, List.map_map, List.zipWith_cons_cons]
    rw [ih (p ∘ Nat.succ) (q ∘ Nat.succ)]
    rfl

/-- The python slice `l[1:-1]` of a map over `List.range n` keeps the interior
indices `1 .. n-2`. -/
theorem pyTrim_range_map (F : ℕ → ℝ) (n : ℕ) :
    pyTrim ((List.range n).map F) = (List.range (n - 2)).map (fun i => F (i + 1)) := by
  unfold pyTrim
  cases n with
  | zero => rfl
  | succ m =>
    rw [List.range_succ_eq_map, List.map_cons, List.drop_one, List.tail_cons, List.map_map]
    simp only [List.length_cons, List.length_map, List.length_range]
    rw [show m + 1 - 2 = m - 1 from rfl]
    rw [← List.map_take, List.take_range, Nat.min_eq_left (Nat.sub_le m 1)]
    rfl

/-- The sum of a map over `List.range n` as a `Finset` sum. -/
theorem sum_range_map (f : ℕ → ℝ) (n : ℕ) :
    ((List.range n).map f).sum = ∑ k in Finset.range n, f k := by
  induction n with
  | zero => rfl
  | succ m ih =>
    rw [List.range_succ, List.map_append, List.sum_append, Finset.sum_range_succ, ih]
    simp

/-- C1: a successful scalar-energy `bounce_period` call returns twice the sum,
over the interior resampled points only (index `k+1` for `k < interpNum - 2`,
excluding the first and last of the `interpNum` uniformly spaced arc-parameter
samples `lin sL sH interpNum j` between the two mirror brackets), of the
arc-length increment — `6.371e6` times the norm of the first difference of the
interpolated positions — divided by the relativistic parallel velocity computed
from `E`, the mirror field `inputB`, and the local field `fB(s) + inputB`. -/
theorem c1_bounce_period_sum (engine : ℝ → EngineTrace)
    (itp : List ℝ → List ℝ → ℝ → ℝ) (inputB E Erest R0 : ℝ) (interpNum : ℕ)
    (fl : FLine) (sL sH : ℝ)
    (hI : interpolate_field_line engine itp inputB R0 = .ok fl)
    (h1 : brentq fl.fB 0 ((fl.S : ℝ) / 2) = .ok sL)
    (h2 : brentq fl.fB ((fl.S : ℝ) / 2) ((fl.S : ℝ) - 1) = .ok sH) :
    bounce_period engine itp inputB E Erest R0 interpNum =
      .ok (decide (fl.S > interpNum),
        2 * ∑ k in Finset.range (interpNum - 2),
          6.371e6 * Real.sqrt
            ((fl.fx (lin sL sH interpNum k) - fl.fx (lin sL sH interpNum (k + 1))) ^ 2 +
             (fl.fy (lin sL sH interpNum k) - fl.fy (lin sL sH interpNum (k + 1))) ^ 2 +
             (fl.fz (lin sL sH interpNum k) - fl.fz (lin sL sH interpNum (k + 1))) ^ 2) /
          vparalel E fl.inputB (fl.fB (lin sL sH interpNum (k + 1)) + fl.inputB) Erest) := by
  unfold bounce_period
  simp only [hI, h1, h2]
  simp only [npLinspace, List.map_map, convolveDiffSame_range_map, zipWith_range_map,
    pyTrim_range_map, sum_range_map]
  refine congrArg Except.ok ?_
  refine congrArg (Prod.mk (decide (fl.S > interpNum))) ?_
  refine congrArg (fun t => 2 * t) ?_
  refine Finset.sum_congr rfl ?_
  intro k hk
  simp only [Function.comp]
  rw [if_neg (by omega : ¬ (k + 1 = 0)), if_neg (by omega : ¬ (k + 1 = 0)),
    if_neg (by omega : ¬ (k + 1 = 0)), Nat.add_sub_cancel]

/-- Evaluation of the interpolator on the concrete witness engine.  The `R0`
argument is immaterial because the code does not forward it to the tracer. -/
theorem interpW (R0 : ℝ) : interpolate_field_line engineW itpW 0 R0 = .ok flW := by
  have hfB : itpW ((List.range 4).map (fun i => (i : ℝ)))
      [3.75 - 0, 0.75 - 0, -0.25 - 0, 0.75 - 0] = fun s : ℝ => (s - 1.5) * (s - 2.5) := by
    simp only [itpW]
    norm_num
  have hfx : itpW ((List.range 4).map (fun i => (i : ℝ))) [0, 1, 2, 3] =
      fun s : ℝ => s := by
    simp only [itpW]
    norm_num
  have hfy : itpW ((List.range 4).map (fun i => (i : ℝ))) [0, 0, 0, 0] =
      fun _ : ℝ => (0 : ℝ) := by
    simp only [itpW]
    norm_num
  have hfz : itpW ((List.range 4).map (fun i => (i : ℝ))) [3, 2, 1, 0] =
      fun s : ℝ => 3 - s := by
    simp only [itpW]
    norm_num
  show Except.ok (FLine.mk 4
      (itpW ((List.range 4).map (fun i => (i : ℝ))) [3.75 - 0, 0.75 - 0, -0.25 - 0, 0.75 - 0])
      (itpW ((List.range 4).map (fun i => (i : ℝ))) [0, 1, 2, 3])
      (itpW ((List.range 4).map (fun i => (i : ℝ))) [0, 0, 0, 0])
      (itpW ((List.range 4).map (fun i => (i : ℝ))) [3, 2, 1, 0]) 0) = .ok flW
  rw [hfB, hfx, hfy, hfz]
  rfl

/-- The first bracketing call on `flW` returns the unique root 1.5 of the
deficit in `[0, 2]`. -/
theorem brentqW1 : brentq flW.fB 0 ((flW.S : ℝ) / 2) = .ok 1.5 := by
  have hfB : flW.fB = fun s : ℝ => (s - 1.5) * (s - 2.5) := rfl
  have h2 : ((flW.S : ℝ) / 2) = 2 := by norm_num [flW]
  rw [hfB, h2]
  refine brentq_eq_of_unique _ 0 2 1.5 (by norm_num)
    ⟨by norm_num, by norm_num, by norm_num⟩ ?_
  intro x hx0 hx2 hfx
  rcases mul_eq_zero.mp hfx with h | h
  · linarith
  · linarith

/-- The second bracketing call on `flW` returns the unique root 2.5 of the
deficit in `[2, 3]`. -/
theorem brentqW2 : brentq flW.fB ((flW.S : ℝ) / 2) ((flW.S : ℝ) - 1) = .ok 2.5 := by
  have hfB : flW.fB = fun s : ℝ => (s - 1.5) * (s - 2.5) := rfl
  have h2 : ((flW.S : ℝ) / 2) = 2 := by norm_num [flW]
  have h3 : ((flW.S : ℝ) - 1) = 3 := by norm_num [flW]
  rw [hfB, h2, h3]
  refine brentq_eq_of_unique _ 2 3 2.5 (by norm_num)
    ⟨by norm_num, by norm_num, by norm_num⟩ ?_
  intro x hx2 hx3 hfx
  rcases mul_eq_zero.mp hfx with h | h
  · linarith
  · linarith

/-- Evaluation of `mirror_point_altitude` on the concrete witness pipeline:
`fz(1.5) = 1.5 > 0`, so the conjugate point is at `s = 2.5`, position
`(2.5, 0, 0.5)`, radial distance `sqrt 6.5` Earth radii. -/
theorem mirrorW (R0 : ℝ) :
    mirror_point_altitude engineW itpW 0 R0 = .ok (Re * (Real.sqrt 6.5 - 1)) := by
  unfold mirror_point_altitude
  simp only [interpW R0, brentqW1, brentqW2]
  rw [if_pos (show flW.fz 1.5 > 0 by norm_num [flW])]
  have h65 : (flW.fx 2.5) ^ 2 + (flW.fy 2.5) ^ 2 + (flW.fz 2.5) ^ 2 = 6.5 := by
    norm_num [flW]
  rw [h65]

/-- C5 as amended: each successful `mirror_point_altitude` call returns
`Re*(r - 1)` — the altitude of the conjugate mirror point above ONE Earth
radius, with `r` its radial distance in Earth radii — for every value of the
`R0` argument, which the code ignores (it is neither forwarded to the tracer
nor used in the altitude formula, which hard-codes the `- 1`). -/
theorem c5_amended_altitude (engine : ℝ → EngineTrace)
    (itp : List ℝ → List ℝ → ℝ → ℝ) (inputB R0 : ℝ) (fl : FLine) (sL sH : ℝ)
    (hI : interpolate_field_line engine itp inputB R0 = .ok fl)
    (h1 : brentq fl.fB 0 ((fl.S : ℝ) / 2) = .ok sL)
    (h2 : brentq fl.fB ((fl.S : ℝ) / 2) ((fl.S : ℝ) - 1) = .ok sH) :
    mirror_point_altitude engine itp inputB R0 =
      .ok (Re * (Real.sqrt ((fl.fx (if fl.fz sL > 0 then sH else sL)) ^ 2 +
        (fl.fy (if fl.fz sL > 0 then sH else sL)) ^ 2 +
        (fl.fz (if fl.fz sL > 0 then sH else sL)) ^ 2) - 1)) ∧
    ∀ r0, mirror_point_altitude engine itp inputB r0 =
      mirror_point_altitude engine itp inputB R0 := by
  constructor
  · by_cases hz : fl.fz sL > 0
    · simp [mirror_point_altitude, hI, h1, h2, hz]
    · simp [mirror_point_altitude, hI, h1, h2, hz]
  · intro r0
    rfl

/-- Counterexample for C5: with stop radius `R0 = 2`, `mirror_point_altitude`
returns `Re*(r - 1)` — the altitude above one Earth radius — and not
`Re*(r - R0)`, the claimed altitude above the reference radius; here the
conjugate mirror point is at radial distance `sqrt 6.5` Earth radii. -/
theorem c5_counterexample :
    mirror_point_altitude engineW itpW 0 2 = .ok (Re * (Real.sqrt 6.5 - 1)) ∧
    mirror_point_altitude engineW itpW 0 2 ≠ .ok (Re * (Real.sqrt 6.5 - 2)) := by
  refine ⟨mirrorW 2, ?_⟩
  rw [mirrorW 2]
  intro h
  have h2 : Re * (Real.sqrt 6.5 - 1) = Re * (Real.sqrt 6.5 - 2) :=
    (Except.ok.injEq _ _).mp h
  have hRe : Re = 6371 := rfl
  rw [hRe] at h2
  linarith

/-- Witness for C5's amended claim at the concrete witness pipeline with
`R0 = 2`. -/
theorem c5_witness :
    interpolate_field_line engineW itpW 0 2 = .ok flW ∧
    brentq flW.fB 0 ((flW.S : ℝ) / 2) = .ok 1.5 ∧
    brentq flW.fB ((flW.S : ℝ) / 2) ((flW.S : ℝ) - 1) = .ok 2.5 ∧
    (mirror_point_altitude engineW itpW 0 2 =
      .ok (Re * (Real.sqrt ((flW.fx (if flW.fz 1.5 > 0 then 2.5 else 1.5)) ^ 2 +
        (flW.fy (if flW.fz 1.5 > 0 then 2.5 else 1.5)) ^ 2 +
        (flW.fz (if flW.fz 1.5 > 0 then 2.5 else 1.5)) ^ 2) - 1)) ∧
      ∀ r0, mirror_point_altitude engineW itpW 0 r0 =
        mirror_point_altitude engineW itpW 0 2) :=
  ⟨interpW 2, brentqW1, brentqW2,
    c5_amended_altitude engineW itpW 0 2 flW 1.5 2.5 (interpW 2) brentqW1 brentqW2⟩

/-- Witness for C1 at the concrete witness pipeline, with 4 resample points
between the brackets 1.5 and 2.5. -/
theorem c1_witness :
    interpolate_field_line engineW itpW 0 1 = .ok flW ∧
    brentq flW.fB 0 ((flW.S : ℝ) / 2) = .ok 1.5 ∧
    brentq flW.fB ((flW.S : ℝ) / 2) ((flW.S : ℝ) - 1) = .ok 2.5 ∧
    bounce_period engineW itpW 0 100 511 1 4 =
      .ok (decide (flW.S > 4),
        2 * ∑ k in Finset.range (4 - 2),
          6.371e6 * Real.sqrt
            ((flW.fx (lin 1.5 2.5 4 k) - flW.fx (lin 1.5 2.5 4 (k + 1))) ^ 2 +
             (flW.fy (lin 1.5 2.5 4 k) - flW.fy (lin 1.5 2.5 4 (k + 1))) ^ 2 +
             (flW.fz (lin 1.5 2.5 4 k) - flW.fz (lin 1.5 2.5 4 (k + 1))) ^ 2) /
          vparalel 100 flW.inputB (flW.fB (lin 1.5 2.5 4 (k + 1)) + flW.inputB) 511) :=
  ⟨interpW 1, brentqW1, brentqW2,
    c1_bounce_period_sum engineW itpW 0 100 511 1 4 flW 1.5 2.5 (interpW 1) brentqW1 brentqW2⟩

/-- A successful interpolation fixes the line's sample count to the trace's. -/
theorem interpolate_S (engine : ℝ → EngineTrace) (itp : List ℝ → List ℝ → ℝ → ℝ)
    (inputB R0 : ℝ) (fl : FLine)
    (hI : interpolate_field_line engine itp inputB R0 = .ok fl) :
    fl.S = traceSampleCount engine := by
  unfold interpolate_field_line at hI
  dsimp only at hI
  split at hI
  · exact absurd hI (by simp)
  · split at hI
    · exact absurd hI (by simp)
    · obtain rfl := ((Except.ok.injEq _ _).mp hI)
      rfl

/-- C8 as amended: in a successful `bounce_period` call, the non-fatal warning
is emitted exactly when the original trace's sample count EXCEEDS the requested
resample count `interpNum` (i.e. when resampling loses resolution), and
execution continues to return a result. -/
theorem c8_amended_warning (engine : ℝ → EngineTrace)
    (itp : List ℝ → List ℝ → ℝ → ℝ) (inputB E Erest R0 : ℝ) (interpNum : ℕ) (w : Bool)
    (h : (bounce_period engine itp inputB E Erest R0 interpNum).map Prod.fst = .ok w) :
    w = true ↔ interpNum < traceSampleCount engine := by
  cases hI : interpolate_field_line engine itp inputB R0 with
  | error e =>
    unfold bounce_period at h
    simp only [hI, mapErr] at h
    exact absurd h (by simp)
  | ok fl =>
    cases h1 : brentq fl.fB 0 ((fl.S : ℝ) / 2) with
    | error e1 =>
      unfold bounce_period at h
      simp only [hI, h1, mapErr] at h
      exact absurd h (by simp)
    | ok s1 =>
      cases h2 : brentq fl.fB ((fl.S : ℝ) / 2) ((fl.S : ℝ) - 1) with
      | error e2 =>
        unfold bounce_period at h
        simp only [hI, h1, h2, mapErr] at h
        exact absurd h (by simp)
      | ok s2 =>
        unfold bounce_period at h
        simp only [hI, h1, h2, mapOk] at h
        obtain rfl : decide (fl.S > interpNum) = w := by
          have := (Except.ok.injEq _ _).mp h
          simpa using this
        rw [← interpolate_S engine itp inputB R0 fl hI]
        exact decide_eq_true_iff

/-- Counterexample for C8: requesting `interpNum = 10` resamples of the
4-sample witness trace — the requested resample density exceeds the trace's
own density — does NOT emit the warning: the code's condition is
`len(fLine['S']) > interpNum`, the opposite direction. -/
theorem c8_counterexample :
    (bounce_period engineW itpW 0 100 511 1 10).map Prod.fst = .ok false ∧
    traceSampleCount engineW < 10 := by
  constructor
  · unfold bounce_period
    simp only [interpW 1, brentqW1, brentqW2]
    rfl
  · decide

/-- Witness for C8's amended claim: a 3-point resampling of the 4-sample
witness trace does warn, and `3 < 4`. -/
theorem c8_witness :
    (bounce_period engineW itpW 0 100 511 1 3).map Prod.fst = .ok true ∧
    (true = true ↔ 3 < traceSampleCount engineW) := by
  have h : (bounce_period engineW itpW 0 100 511 1 3).map Prod.fst = .ok true := by
    unfold bounce_period
    simp only [interpW 1, brentqW1, brentqW2]
    rfl
  exact ⟨h, c8_amended_warning engineW itpW 0 100 511 1 3 true h⟩

/-- C10: errors raised inside the two pipeline entry points surface to the
caller: an interpolation error propagates unmodified through `bounce_period`
and `mirror_point_altitude`, and a `brentq` ValueError from either bracketing
call is re-raised as the explicit mirror-point-below-ground ValueError — never
swallowed with execution continuing past the failed root-finding step. -/
theorem c10_error_propagation (engine : ℝ → EngineTrace)
    (itp : List ℝ → List ℝ → ℝ → ℝ) (inputB E Erest R0 : ℝ) (interpNum : ℕ) :
    (∀ e, interpolate_field_line engine itp inputB R0 = .error e →
      bounce_period engine itp inputB E Erest R0 interpNum = .error e ∧
      mirror_point_altitude engine itp inputB R0 = .error e) ∧
    (∀ fl, interpolate_field_line engine itp inputB R0 = .ok fl →
      ((∃ e1, brentq fl.fB 0 ((fl.S : ℝ) / 2) = .error e1) ∨
       (∃ e2, brentq fl.fB ((fl.S : ℝ) / 2) ((fl.S : ℝ) - 1) = .error e2)) →
      bounce_period engine itp inputB E Erest R0 interpNum = .error .mirrorBelowGround ∧
      mirror_point_altitude engine itp inputB R0 = .error .mirrorBelowGround) := by
  constructor
  · intro e he
    exact ⟨by simp [bounce_period, he], by simp [mirror_point_altitude, he]⟩
  · intro fl hfl hbr
    cases h1 : brentq fl.fB 0 ((fl.S : ℝ) / 2) with
    | error e1 =>
      exact ⟨by simp [bounce_period, hfl, h1], by simp [mirror_point_altitude, hfl, h1]⟩
    | ok s1 =>
      cases h2 : brentq fl.fB ((fl.S : ℝ) / 2) ((fl.S : ℝ) - 1) with
      | error e2 =>
        exact ⟨by simp [bounce_period, hfl, h1, h2],
          by simp [mirror_point_altitude, hfl, h1, h2]⟩
      | ok s2 =>
        exfalso
        rcases hbr with ⟨e1, he1⟩ | ⟨e2, he2⟩
        · rw [h1] at he1; exact Except.noConfusion he1
        · rw [h2] at he2; exact Except.noConfusion he2

/-- The flat field line makes the first bracketing call fail: the deficit is
the constant 1, so `f(a)*f(b) = 1 > 0`. -/
theorem brentq_flat_fails : brentq flFlat.fB 0 ((flFlat.S : ℝ) / 2) = .error .differentSigns := by
  unfold brentq
  rw [if_pos (show flFlat.fB 0 * flFlat.fB ((flFlat.S : ℝ) / 2) > 0 by norm_num [flFlat])]

/-- Witness for C10 at the concrete flat field line, where the root-finder
fails and both entry points re-raise the explicit error. -/
theorem c10_witness :
    interpolate_field_line engineFlat itpFlat 0 1 = .ok flFlat ∧
    (∃ e1, brentq flFlat.fB 0 ((flFlat.S : ℝ) / 2) = .error e1) ∧
    bounce_period engineFlat itpFlat 0 100 511 1 100000 = .error .mirrorBelowGround ∧
    mirror_point_altitude engineFlat itpFlat 0 1 = .error .mirrorBelowGround := by
  have hI : interpolate_field_line engineFlat itpFlat 0 1 = .ok flFlat := rfl
  obtain ⟨hbp, hmp⟩ := (c10_error_propagation engineFlat itpFlat 0 100 511 1 100000).2 flFlat hI
    (Or.inl ⟨.differentSigns, brentq_flat_fails⟩)
  exact ⟨hI, ⟨.differentSigns, brentq_flat_fails⟩, hbp, hmp⟩

end IRBEM
